import Mathlib

/-!
Verification of the maro policy-manager / host / gradient-worker coordination
layer, shallowly embedded from:

  * `src/maro/rl/policy/policy_manager.py`
    (`AbsPolicyManager`, `LocalPolicyManager`, `MultiProcessPolicyManager`,
     `MultiNodePolicyManager`, `MultiNodeDistPolicyManager.allocate_strategy`)
  * `src/maro/rl/learning/policy_manager.py`
    (`AbsPolicyManager.server`, `SimplePolicyManager`,
     `DistributedPolicyManager`, `policy_host`, `grad_worker`)

Modelling conventions, fixed once here:

  * Python `dict`s keyed by policy name become association lists
    `List (String × _)` in insertion order; `collections.defaultdict(int)`
    access becomes `alGetD … 0`.
  * A policy's learning algorithm is out of scope in the source (opaque
    `get_state` / `learn` capability), so its serialized state is modelled as
    an opaque `Nat` that every `learn`-like call replaces with a fresh value
    (`· + 1`); an `ExperienceSet` is represented by its `size : Nat`, the only
    attribute the manager code reads.
  * Code paths that raise (`KeyError`, `IndexError`, `TypeError`,
    `raise TypeError`) are modelled with `Option` / an explicit `raised`
    outcome.
-/

/-- Entry lookup in an association list (Python `d[k]` respectively
`d.get(k)`), returning `none` when the key is absent. -/
def alGet? {κ α : Type} [DecidableEq κ] : List (κ × α) → κ → Option α
  | [], _ => none
  | (k, v) :: t, k' => if k = k' then some v else alGet? t k'

/-- Lookup with a default value; with default `0` this is
`collections.defaultdict(int)` access. -/
def alGetD {κ α : Type} [DecidableEq κ] (l : List (κ × α)) (k : κ) (d : α) : α :=
  (alGet? l k).getD d

/-- Entry assignment `d[k] = v`: replaces the first binding of `k`, appends a
new binding at the end when `k` is absent (Python dicts keep insertion
order). -/
def alSet {κ α : Type} [DecidableEq κ] : List (κ × α) → κ → α → List (κ × α)
  | [], k, v => [(k, v)]
  | (k', v') :: t, k, v => if k' = k then (k, v) :: t else (k', v') :: alSet t k v

theorem alGet?_alSet {κ α : Type} [DecidableEq κ] (l : List (κ × α)) (k k' : κ) (v : α) :
    alGet? (alSet l k v) k' = if k = k' then some v else alGet? l k' := by
  induction l with
  | nil => simp [alSet, alGet?]
  | cons e t ih =>
    obtain ⟨ek, ev⟩ := e
    simp only [alSet]
    by_cases hek : ek = k
    · subst hek
      simp only [if_pos rfl, alGet?]
      by_cases hk' : ek = k' <;> simp [hk']
    · simp only [if_neg hek, alGet?]
      by_cases hk2 : ek = k'
      · subst hk2
        have hne : ¬ k = ek := fun h => hek h.symm
        simp [hne]
      · simp [hk2, ih]

theorem alGetD_alSet {κ α : Type} [DecidableEq κ] (l : List (κ × α)) (k k' : κ) (v d : α) :
    alGetD (alSet l k v) k' d = if k = k' then v else alGetD l k' d := by
  unfold alGetD
  rw [alGet?_alSet]
  by_cases h : k = k' <;> simp [h]

theorem alGet?_isSome_iff_mem {κ α : Type} [DecidableEq κ] (l : List (κ × α)) (k : κ) :
    (alGet? l k).isSome = true ↔ k ∈ l.map Prod.fst := by
  induction l with
  | nil => simp [alGet?]
  | cons e t ih =>
    obtain ⟨ek, ev⟩ := e
    by_cases h : ek = k
    · subst h; simp [alGet?]
    · simp only [alGet?, if_neg h, List.map_cons, List.mem_cons, ih]
      constructor
      · exact fun hm => Or.inr hm
      · rintro (hm | hm)
        · exact absurd hm.symm h
        · exact hm

/-- `PolicyUpdateOptions` namedtuple of `src/maro/rl/policy/policy_manager.py`
(the `data_parallel` field is never read by the code modelled here and is
omitted). -/
structure PolicyUpdateOptions where
  update_trigger : Nat
  warmup : Nat
  num_epochs : Nat
  reset_memory : Bool
deriving DecidableEq, Repr

/-- A `CorePolicy` as seen by `LocalPolicyManager`: its experience memory is
represented by its size, its learning algorithm by an opaque state counter
(`algorithm.get_state()`); `policy.update()` replaces that state. -/
structure Policy where
  memSize : Nat
  algState : Nat
deriving DecidableEq, Repr

/-- State of a `LocalPolicyManager` (and of the `AbsPolicyManager` base of
`src/maro/rl/policy/policy_manager.py` that owns `_update_history`). -/
structure LocalPolicyManager where
  policy_dict : List (String × Policy)
  update_option : List (String × PolicyUpdateOptions)
  update_history : List (List String)
  new_exp_counter : List (String × Nat)
deriving DecidableEq, Repr

/-- `AbsPolicyManager.__init__`: `self._update_history = [set(policy_dict.keys())]`,
`self._new_exp_counter = defaultdict(int)`. -/
def mkLocalPolicyManager (policy_dict : List (String × Policy))
    (update_option : List (String × PolicyUpdateOptions)) : LocalPolicyManager :=
  { policy_dict := policy_dict
    update_option := update_option
    update_history := [policy_dict.map Prod.fst]
    new_exp_counter := [] }

/-- `AbsPolicyManager.version`: `len(self._update_history) - 1`. -/
def localVersion (s : LocalPolicyManager) : Nat :=
  s.update_history.length - 1

/-- One iteration of the `for policy_name, exp in exp_by_policy.items()` loop
of `LocalPolicyManager.update`; the accumulator carries
(`policy_dict`, `_new_exp_counter`, `updated`). `e = (policy_name, exp.size)`.
The option defaults `(1, 1, 1, False)` are the documented per-policy
defaults. -/
def localUpdateStep (uo : List (String × PolicyUpdateOptions))
    (acc : List (String × Policy) × List (String × Nat) × List String)
    (e : String × Nat) :
    List (String × Policy) × List (String × Nat) × List String :=
  let pd := acc.1
  let cnt := acc.2.1
  let upd := acc.2.2
  let p := (alGet? pd e.1).getD ⟨0, 0⟩
  -- policy.experience_memory.put(exp)
  let p1 : Policy := { p with memSize := p.memSize + e.2 }
  -- self._new_exp_counter[policy_name] += exp.size
  let c1 := alGetD cnt e.1 0 + e.2
  let opt := alGetD uo e.1 ⟨1, 1, 1, false⟩
  if opt.update_trigger ≤ c1 ∧ opt.warmup ≤ p1.memSize then
    -- num_epochs calls to policy.update(), then optional reset_memory,
    -- updated.add(name), counter reset to 0
    let p2 : Policy := { memSize := if opt.reset_memory then 0 else p1.memSize
                         algState := p1.algState + opt.num_epochs }
    (alSet pd e.1 p2, alSet cnt e.1 0, upd ++ [e.1])
  else
    (alSet pd e.1 p1, alSet cnt e.1 c1, upd)

/-- The whole per-policy loop of `LocalPolicyManager.update`. -/
def localUpdateRun (s : LocalPolicyManager) (exp_by_policy : List (String × Nat)) :
    List (String × Policy) × List (String × Nat) × List String :=
  exp_by_policy.foldl (localUpdateStep s.update_option)
    (s.policy_dict, s.new_exp_counter, [])

/-- The `updated` set computed by one `LocalPolicyManager.update` call (Python
builds a `set`; the keys of `exp_by_policy` are dict keys, hence distinct, so a
list in iteration order is an order-faithful model). -/
def localUpdatedNames (s : LocalPolicyManager) (exp_by_policy : List (String × Nat)) :
    List String :=
  (localUpdateRun s exp_by_policy).2.2

/-- `LocalPolicyManager.update`: runs the per-policy loop, then
`if updated: self._update_history.append(updated)`. -/
def localUpdate (s : LocalPolicyManager) (exp_by_policy : List (String × Nat)) :
    LocalPolicyManager :=
  let r := localUpdateRun s exp_by_policy
  { s with
    policy_dict := r.1
    new_exp_counter := r.2.1
    update_history :=
      if r.2.2.isEmpty then s.update_history else s.update_history ++ [r.2.2] }

/-- `self.policy_dict[name].algorithm.get_state()`; every name that occurs in
`_update_history` was a `policy_dict` key when recorded, so the default is
never reached on states produced by the constructor and `localUpdate`. -/
def algStateOf (s : LocalPolicyManager) (name : String) : Nat :=
  ((alGet? s.policy_dict name).getD ⟨0, 0⟩).algState

/-- Names collected by the
`for version in range(cur_version + 1, len(self._update_history))` loop of
`AbsPolicyManager.get_state`. -/
def historySlice (s : LocalPolicyManager) (cur_version : Int) : List String :=
  ((List.range s.update_history.length).filter
    (fun (i : Nat) => decide (cur_version < (i : Int)))).flatMap
    (fun (i : Nat) => s.update_history.getD i [])

/-- `AbsPolicyManager.get_state` with an explicit `cur_version` argument: the
returned dict maps each name updated in a history entry of index
`> cur_version` to its policy's current algorithm state.  (The Python `set`
union is modelled by `dedup`; the function is pure, so by construction it
mutates neither `version` nor `_update_history`.) -/
def localGetState (s : LocalPolicyManager) (cur_version : Int) : List (String × Nat) :=
  (historySlice s cur_version).dedup.map (fun n => (n, algStateOf s n))

/-- `AbsPolicyManager.get_state` with `cur_version=None`:
`cur_version = self.version - 1`. -/
def localGetStateDefault (s : LocalPolicyManager) : List (String × Nat) :=
  localGetState s ((localVersion s : Int) - 1)

/-- A roll-out record as dispatched to `update` / `LEARN` handlers: the code
only ever asks `isinstance(info_list[0], Trajectory)` /
`isinstance(info_list[0], LossInfo)`, so the payloads are opaque; a third
constructor stands for any other record type. -/
inductive RolloutRecord where
  | trajectory (payload : Nat)
  | lossInfo (payload : Nat)
  | unknownRecord (payload : Nat)
deriving DecidableEq, Repr

/-- The `rollout_info` argument of the learning-module managers: a dict from
policy name to a list of records (`if not isinstance(info_list, list)`
wrapping is assumed already done). -/
abbrev RolloutInfo := List (String × List RolloutRecord)

/-- State of a `SimplePolicyManager` (`src/maro/rl/learning/policy_manager.py`,
non-data-parallel mode): the instantiated policies' opaque states and the
collective `_version`. -/
structure SimplePolicyManager where
  policy_states : List (String × Nat)
  version : Nat
deriving DecidableEq, Repr

/-- One iteration of the `for policy_name, info_list in rollout_info.items()`
loop of `SimplePolicyManager.update`:  `none` models an uncaught exception
(`KeyError` on an unmanaged name, `IndexError` on `info_list[0]` for an empty
list).  A record list headed by neither `Trajectory` nor `LossInfo` is
*silently skipped* (the if/elif chain has no else branch). -/
def simpleLearnOne (states : List (String × Nat)) (e : String × List RolloutRecord) :
    Option (List (String × Nat)) :=
  match alGet? states e.1 with
  | none => none
  | some st =>
    match e.2 with
    | [] => none
    | RolloutRecord.trajectory _ :: _ =>
      -- learn_from_multi_trajectories(info_list)
      some (alSet states e.1 (st + 1))
    | RolloutRecord.lossInfo _ :: _ =>
      -- update_with_multi_loss_info(info_list)
      some (alSet states e.1 (st + 1))
    | RolloutRecord.unknownRecord _ :: _ => some states

/-- `SimplePolicyManager.update`: processes every entry then executes
`self._version += 1` unconditionally. -/
def simpleUpdate (sm : SimplePolicyManager) (rollout_info : RolloutInfo) :
    Option SimplePolicyManager :=
  (rollout_info.foldlM simpleLearnOne sm.policy_states).map
    (fun st => { policy_states := st, version := sm.version + 1 })

/-- A sequence of `SimplePolicyManager.update` calls, each propagating the
state produced by the previous one; `none` as soon as one call raises. -/
def simpleRunChain (sm : SimplePolicyManager) : List RolloutInfo → Option SimplePolicyManager
  | [] => some sm
  | r :: rs =>
    match simpleUpdate sm r with
    | none => none
    | some sm2 => simpleRunChain sm2 rs

/-- `SimplePolicyManager.get_state`. -/
def simpleGetState (sm : SimplePolicyManager) : List (String × Nat) :=
  sm.policy_states

/-- The staleness-filtered `SAMPLE_DONE` handler of `AbsPolicyManager.server`
(`src/maro/rl/learning/policy_manager.py`, lines 70-82), generic over the
manager representation exactly as the server is generic over the
`update`/`get_state`/`get_version` methods of its concrete subclass.  Returns
the manager after the message and the `(state, version)` reply body. -/
def handleSampleDone {M S R : Type} (update : M → R → M) (get_state : M → S)
    (get_version : M → Nat) (max_lag : Nat) (m : M) (v : Int) (rollout_info : R) :
    M × S × Nat :=
  if (get_version m : Int) - v > (max_lag : Int) then
    (m, get_state m, get_version m)
  else
    let m2 := update m rollout_info
    (m2, get_state m2, get_version m2)

/-- Message tags of the coordination protocol (MsgTag values and the typed
pipe messages), restricted to the payloads the modelled handlers read. -/
inductive Msg where
  | getInitialPolicyState
  | sampleDone (version : Int) (rollout_info : RolloutInfo)
  | actorDone
  | initPolicies (names : List String)
  | learnMsg (rollout_info : RolloutInfo)
  | computeGrad (tasks : List (String × Nat))
  | exitMsg
deriving DecidableEq, Repr

/-- Outcome of feeding one message to a receive loop: the loop continues with
a new state, returns normally, or raises (terminating the process). -/
inductive StepOutcome (σ : Type) where
  | next (s : σ)
  | halted
  | raised
deriving DecidableEq, Repr

/-- One iteration of the `for msg in proxy.receive()` loop of
`AbsPolicyManager.server`, generic over the concrete manager; the server
state is the manager paired with `num_active_actors`.  Tags other than the
three handled ones fall through the if/elif chain: the loop silently
continues. -/
def serverStep {M S : Type} (update : M → RolloutInfo → M) (get_state : M → S)
    (get_version : M → Nat) (max_lag : Nat) (st : M × Int) (msg : Msg) :
    StepOutcome (M × Int) × Option (S × Nat) :=
  match msg with
  | Msg.getInitialPolicyState =>
    (StepOutcome.next st, some (get_state st.1, get_version st.1))
  | Msg.sampleDone v info =>
    let r := handleSampleDone update get_state get_version max_lag st.1 v info
    (StepOutcome.next (r.1, st.2), some r.2)
  | Msg.actorDone =>
    let c := st.2 - 1
    if c = 0 then (StepOutcome.halted, none) else (StepOutcome.next (st.1, c), none)
  | _ => (StepOutcome.next st, none)

/-- The per-entry body of the `LEARN` handler of `policy_host`
(`src/maro/rl/learning/policy_manager.py`, lines 524-542, non-data-parallel
branch): `none` models the `raise TypeError` on an unrecognized record type
(and the `IndexError` on `info_list[0]` for an empty record list). -/
def learnEntries (policy_dict : List (String × Nat)) :
    RolloutInfo → Option (List (String × Nat))
  | [] => some policy_dict
  | (name, records) :: rest =>
    match records with
    | [] => none
    | RolloutRecord.trajectory _ :: _ =>
      learnEntries (alSet policy_dict name (alGetD policy_dict name 0 + 1)) rest
    | RolloutRecord.lossInfo _ :: _ =>
      learnEntries (alSet policy_dict name (alGetD policy_dict name 0 + 1)) rest
    | RolloutRecord.unknownRecord _ :: _ => none

/-- One iteration of the `policy_host` receive loop: `EXIT` breaks,
`INIT_POLICIES` instantiates the named policies, `LEARN` runs `learnEntries`,
and any other tag hits the final `else: raise TypeError`. -/
def policyHostStep (policy_dict : List (String × Nat)) (msg : Msg) :
    StepOutcome (List (String × Nat)) :=
  match msg with
  | Msg.exitMsg => StepOutcome.halted
  | Msg.initPolicies names =>
    StepOutcome.next (names.foldl (fun d n => alSet d n 0) policy_dict)
  | Msg.learnMsg info =>
    match learnEntries policy_dict info with
    | some pd => StepOutcome.next pd
    | none => StepOutcome.raised
  | _ => StepOutcome.raised

/-- One iteration of the `grad_worker` receive loop: `EXIT` breaks,
`INIT_POLICIES` instantiates, `COMPUTE_GRAD` computes batch losses without
touching authoritative state, and any other tag hits the final
`else: raise TypeError`. -/
def gradWorkerStep (policy_dict : List (String × Nat)) (msg : Msg) :
    StepOutcome (List (String × Nat)) :=
  match msg with
  | Msg.exitMsg => StepOutcome.halted
  | Msg.initPolicies names =>
    StepOutcome.next (names.foldl (fun d n => alSet d n 0) policy_dict)
  | Msg.computeGrad _ => StepOutcome.next policy_dict
  | _ => StepOutcome.raised

/-- Tags the `policy_host` loop handles without reaching its
`else: raise TypeError`. -/
def hostExpected : Msg → Bool
  | Msg.exitMsg | Msg.initPolicies _ | Msg.learnMsg _ => true
  | _ => false

/-- Tags the `grad_worker` loop handles without reaching its
`else: raise TypeError`. -/
def workerExpected : Msg → Bool
  | Msg.exitMsg | Msg.initPolicies _ | Msg.computeGrad _ => true
  | _ => false

/-- Tags the `AbsPolicyManager.server` loop reacts to; any other tag falls
through its if/elif chain. -/
def serverExpected : Msg → Bool
  | Msg.getInitialPolicyState | Msg.sampleDone _ _ | Msg.actorDone => true
  | _ => false

/-- A record list on which `info_list[0]` dispatch raises: empty
(`IndexError`) or headed by an unrecognized record type (`raise TypeError`). -/
def recordHeadBad : List RolloutRecord → Bool
  | [] => true
  | RolloutRecord.unknownRecord _ :: _ => true
  | _ => false

/-- Python `round()` (banker's rounding, half to even) of the exact rational
`a / b`; the source computes `num_exp / (total / num_trainers)` in floating
point, modelled here as exact arithmetic on `a = num_exp * num_trainers`,
`b = total`. -/
def pyRoundNat (a b : Nat) : Nat :=
  let q := a / b
  let r := a % b
  if 2 * r < b then q
  else if b < 2 * r then q + 1
  else if q % 2 = 0 then q else q + 1

/-- The per-policy quotas of the warm branch of
`MultiNodeDistPolicyManager.allocate_strategy`:
`quota = max(1, int(round(num_exp / average_payload)))` with
`average_payload = total / num_trainers`. -/
def quotaList (num_trainers : Nat) (loads : List (String × Nat)) :
    List (String × Nat) :=
  let total := (loads.map Prod.snd).sum
  loads.map (fun p => (p.1, max 1 (pyRoundNat (p.2 * num_trainers) total)))

/-- `policy_quota[busiest_policy] += redundancy`: Python's
`max(policy_quota, key=...)` returns the first key attaining the maximal
quota in insertion order; `bumpFirst m r` adds `r` to the first entry whose
quota equals `m`. -/
def bumpFirst (m r : Nat) : List (String × Nat) → List (String × Nat)
  | [] => []
  | (name, q) :: t =>
    if q = m then (name, q + r) :: t else (name, q) :: bumpFirst m r t

/-- The maximal quota of a quota list (0 for the empty list). -/
def maxQuota (l : List (String × Nat)) : Nat :=
  (l.map Prod.snd).foldr max 0

/-- The redundancy adjustment
`redundancy = num_trainers - sum(policy_quota.values()); if redundancy > 0:
policy_quota[busiest_policy] += redundancy`. -/
def adjustQuotas (num_trainers : Nat) (quotas : List (String × Nat)) :
    List (String × Nat) :=
  let redundancy : Int := (num_trainers : Int) - ((quotas.map Prod.snd).sum : Int)
  if 0 < redundancy then bumpFirst (maxQuota quotas) redundancy.toNat quotas
  else quotas

/-- The slot-emission loop of the warm branch: for each `(name, quota)` in
order, assign slots `(i + offset) % num_trainers` for `i < quota`, then
advance `offset` by `quota` modulo `num_trainers`.  The result is the flat
list of `(policy, slot)` pairs in emission order; the code's `policy2trainer`
and `trainer2policies` dicts (where slot `s` is keyed `"TRAINER.{s}"`) are its
two projections. -/
def emitAssign (num_trainers : Nat) : Nat → List (String × Nat) → List (String × Nat)
  | _, [] => []
  | offset, (name, quota) :: rest =>
    ((List.range quota).map (fun i => (name, (i + offset) % num_trainers))) ++
      emitAssign num_trainers ((offset + quota) % num_trainers) rest

/-- The positions `i, i + k, i + 2k, …` of `list(range(n))` — Python slice
`trainer_id_list[i::k]`. -/
def slice_stride (n i k : Nat) : List Nat :=
  (List.range n).filter (fun (t : Nat) => decide (i ≤ t) && decide ((t - i) % k = 0))

/-- `MultiNodeDistPolicyManager.allocate_strategy`
(`src/maro/rl/policy/policy_manager.py`, lines 394-440) as the flat list of
emitted `(policy, slot)` assignments.  Note that *both* loops of the
cold-start branch (`len(num_experiences_by_policy) == 0`) iterate over
`num_experiences_by_policy` itself, which that branch has just established to
be empty. -/
def allocate_strategy (num_trainers : Nat) (loads : List (String × Nat)) :
    List (String × Nat) :=
  if loads.length = 0 then
    if num_trainers ≤ loads.length then
      (loads.map Prod.fst).enum.map (fun p => (p.2, p.1 % num_trainers))
    else
      (loads.map Prod.fst).enum.flatMap
        (fun p => (slice_stride num_trainers p.1 loads.length).map (fun t => (p.2, t)))
  else
    emitAssign num_trainers 0 (adjustQuotas num_trainers (quotaList num_trainers loads))

/-- How many times slot `s` occurs in a flat assignment list — the total
number of policies the emitted `trainer2policies` maps to `"TRAINER.{s}"`. -/
def countSlot (l : List (String × Nat)) (s : Nat) : Nat :=
  (l.map Prod.snd).count s

/-- The experience bookkeeping shared by `MultiProcessPolicyManager` and
`MultiNodePolicyManager` of `src/maro/rl/policy/policy_manager.py`:
`_exp_cache` (cached `ExperienceSet`s, represented by their sizes) and
`_num_experiences_by_policy`, both `defaultdict`s. -/
structure MPState where
  exp_cache : List (String × Nat)
  num_experiences : List (String × Nat)
deriving DecidableEq, Repr

/-- One iteration of the experience-gathering loop of
`MultiProcessPolicyManager.update` (lines 201-209): extend the cache and the
counter, and when `cache.size >= update_trigger and counter >= warmup`, pop
the cache into `exp_to_send`.  (`pop` removes the key; re-access through the
`defaultdict` recreates it empty, so removal is modelled as resetting the
cached size to 0.)  Accumulator: `(state, exp_to_send)`. -/
def mpGatherStep (uo : List (String × PolicyUpdateOptions))
    (acc : MPState × List (String × Nat)) (e : String × Nat) :
    MPState × List (String × Nat) :=
  let s := acc.1
  let ets := acc.2
  let n := alGetD s.num_experiences e.1 0 + e.2
  let c := alGetD s.exp_cache e.1 0 + e.2
  let opt := alGetD uo e.1 ⟨1, 1, 1, false⟩
  if opt.update_trigger ≤ c ∧ opt.warmup ≤ n then
    ({ exp_cache := alSet s.exp_cache e.1 0, num_experiences := alSet s.num_experiences e.1 n },
      ets ++ [(e.1, c)])
  else
    ({ exp_cache := alSet s.exp_cache e.1 c, num_experiences := alSet s.num_experiences e.1 n },
      ets)

/-- The `exp_to_send` dict computed by one `MultiProcessPolicyManager.update`
call on state `st`. -/
def mpComputeSend (uo : List (String × PolicyUpdateOptions)) (st : MPState)
    (exp_by_policy : List (String × Nat)) : List (String × Nat) :=
  (exp_by_policy.foldl (mpGatherStep uo) (st, [])).2

/-- Whether the entry `e = (policy_name, exp.size)` of `exp_by_policy` meets
its policy's update condition relative to the pre-call state `st` (for dict
input — distinct keys — this is exactly the in-loop check `cache.size >=
update_trigger and counter >= warmup` after the two `+= exp.size`). -/
def metUpdateCondition (uo : List (String × PolicyUpdateOptions)) (st : MPState)
    (e : String × Nat) : Bool :=
  let opt := alGetD uo e.1 ⟨1, 1, 1, false⟩
  decide (opt.update_trigger ≤ alGetD st.exp_cache e.1 0 + e.2) &&
    decide (opt.warmup ≤ alGetD st.num_experiences e.1 0 + e.2)

/-- The round-robin policy→trainer assignment of
`MultiProcessPolicyManager.__init__` / `MultiNodePolicyManager.__init__`:
policy at index `i` (counting from `start`) goes to trainer `i % nt`. -/
def assignRR (nt : Nat) : Nat → List String → List (String × Nat)
  | _, [] => []
  | i, n :: t => (n, i % nt) :: assignRR nt (i + 1) t

/-- `self._trainer2policies["TRAINER.{j}"]`: the policies round-robin-assigned
to trainer `j`. -/
def trainer2policies (nt : Nat) (names : List String) (j : Nat) : List String :=
  ((assignRR nt 0 names).filter (fun p => decide (p.2 = j))).map Prod.fst

/-- The dispatch loop of `MultiProcessPolicyManager.update` (lines 212-216)
builds `{name: exp_to_send[name] for name in self._trainer2policies[trainer_id]}`
for every trainer channel: every lookup must find its key for the dispatch to
reach the merge phase instead of raising `KeyError`. -/
def dispatchTotal (names : List String) (nt : Nat) (ets : List (String × Nat)) : Prop :=
  ∀ j, j < nt → ∀ nm ∈ trainer2policies nt names j, (alGet? ets nm).isSome = true

/-- Insertion into the `defaultdict`-of-dicts `msg_body_by_dest` /
`msg_dict`: a first message body for a new destination host is appended at
the end, an existing destination's body is extended. -/
def groupInsert {α : Type} (m : List (Nat × List (String × α))) (h : Nat)
    (e : String × α) : List (Nat × List (String × α)) :=
  match m with
  | [] => [(h, [e])]
  | (h', l) :: t =>
    if h' = h then (h', l ++ [e]) :: t else (h', l) :: groupInsert t h e

/-- The per-destination payload map built by `DistributedPolicyManager.update`
(`msg_dict`, lines 436-442) and `MultiNodePolicyManager.update`
(`msg_body_by_dest`, lines 312-317): each rollout entry is filed under its
policy's host.  Host ids are `Nat` (the code keys them `"POLICY_HOST.{i}"` /
`"TRAINER.{i}"`).  The gather phase then waits for exactly `msg_dict.length`
replies (`dones == len(msg_dict)`). -/
def buildMsgDict {α : Type} (p2h : String → Nat) (rollout_info : List (String × α)) :
    List (Nat × List (String × α)) :=
  rollout_info.foldl (fun m e => groupInsert m (p2h e.1) e) []

def localChainOk (s : LocalPolicyManager) : List (List (String × Nat)) → Bool
  | [] => true
  | e :: es => !(localUpdatedNames s e).isEmpty && localChainOk (localUpdate s e) es

theorem localUpdate_history_append (s : LocalPolicyManager) (e : List (String × Nat))
    (h : (localUpdatedNames s e).isEmpty = false) :
    (localUpdate s e).update_history = s.update_history ++ [localUpdatedNames s e] := by
  unfold localUpdate
  simp only [localUpdatedNames] at h ⊢
  simp [h]

theorem localUpdate_hist_ne (s : LocalPolicyManager) (e : List (String × Nat))
    (hh : s.update_history ≠ []) : (localUpdate s e).update_history ≠ [] := by
  unfold localUpdate
  by_cases h : (localUpdateRun s e).2.2.isEmpty
  · simpa [h]
  · simp [h]

theorem localVersion_update_succ (s : LocalPolicyManager) (e : List (String × Nat))
    (hh : s.update_history ≠ []) (h : (localUpdatedNames s e).isEmpty = false) :
    localVersion (localUpdate s e) = localVersion s + 1 := by
  have hlen : s.update_history.length ≠ 0 := fun hc => hh (List.length_eq_zero.mp hc)
  have := localUpdate_history_append s e h
  simp [localVersion, this]
  omega

theorem localChain_version (es : List (List (String × Nat))) :
    ∀ s : LocalPolicyManager, s.update_history ≠ [] → localChainOk s es = true →
      localVersion (es.foldl localUpdate s) = localVersion s + es.length := by
  induction es with
  | nil => intro s _ _; simp
  | cons e es ih =>
    intro s hh hok
    simp only [localChainOk, Bool.and_eq_true, Bool.not_eq_true'] at hok
    have h1 := localVersion_update_succ s e hh hok.1
    have h2 := ih (localUpdate s e) (localUpdate_hist_ne s e hh) hok.2
    simp only [List.foldl_cons, List.length_cons]
    omega

theorem simpleUpdate_version (sm sm' : SimplePolicyManager) (r : RolloutInfo)
    (h : simpleUpdate sm r = some sm') : sm'.version = sm.version + 1 := by
  unfold simpleUpdate at h
  obtain ⟨st, _, h2⟩ := Option.map_eq_some'.mp h
  rw [← h2]

theorem simpleRunChain_version (rs : List RolloutInfo) :
    ∀ sm sm' : SimplePolicyManager, simpleRunChain sm rs = some sm' →
      sm'.version = sm.version + rs.length := by
  induction rs with
  | nil => intro sm sm' h; simp [simpleRunChain] at h; simp [← h]
  | cons r rs ih =>
    intro sm sm' h
    unfold simpleRunChain at h
    cases hu : simpleUpdate sm r with
    | none => rw [hu] at h; exact absurd h (by simp)
    | some sm2 =>
      rw [hu] at h
      have := ih sm2 sm' h
      have hv := simpleUpdate_version sm sm2 r hu
      simp only [List.length_cons]
      omega

/-- C1: for every sequence of `update()` calls in which each call causes at
least one policy to be updated, the manager's version after N such calls
equals the version before them plus N — each such call appends exactly one
entry to `_update_history` (`LocalPolicyManager.update`) respectively
executes `self._version += 1` exactly once (`SimplePolicyManager.update`),
regardless of how many policies were updated in that call. -/
theorem claim_C1_version_increments_per_nonempty_update
    (s : LocalPolicyManager) (es : List (List (String × Nat)))
    (hh : s.update_history ≠ []) (hok : localChainOk s es = true)
    (sm sm' : SimplePolicyManager) (rs : List RolloutInfo)
    (hne : rs.all (fun r => !r.isEmpty) = true) (hrun : simpleRunChain sm rs = some sm') :
    localVersion (es.foldl localUpdate s) = localVersion s + es.length ∧
    sm'.version = sm.version + rs.length :=
  ⟨localChain_version es s hh hok, simpleRunChain_version rs sm sm' hrun⟩

theorem claim_C1_witness :
    localVersion (([[("p1", 1)], [("p1", 1)]] : List (List (String × Nat))).foldl localUpdate
        (mkLocalPolicyManager [("p1", ⟨0, 0⟩)] [("p1", ⟨1, 1, 1, false⟩)])) =
      localVersion (mkLocalPolicyManager [("p1", ⟨0, 0⟩)] [("p1", ⟨1, 1, 1, false⟩)]) + 2 ∧
    ({ policy_states := [("p1", 1)], version := 1 } : SimplePolicyManager).version =
      ({ policy_states := [("p1", 0)], version := 0 } : SimplePolicyManager).version + 1 :=
  claim_C1_version_increments_per_nonempty_update
    (mkLocalPolicyManager [("p1", ⟨0, 0⟩)] [("p1", ⟨1, 1, 1, false⟩)])
    [[("p1", 1)], [("p1", 1)]] (by decide) (by decide)
    { policy_states := [("p1", 0)], version := 0 }
    { policy_states := [("p1", 1)], version := 1 }
    [[("p1", [RolloutRecord.trajectory 0])]] (by decide) (by decide)

/-- C2: `get_state(v)` returns exactly the set of policies whose name appears
in some `_update_history` entry with index in the half-open interval
`(v, current]` (`current = len(_update_history) - 1`, so those are the indices
`v < i < len`), each name exactly once, each carrying the policy's latest
algorithm state; the omitted argument defaults to `version - 1`.  The
function is pure in this embedding, so it mutates neither the version nor the
history by construction. -/
theorem claim_C2_get_state_slice (s : LocalPolicyManager) (v : Int) (name : String) :
    (name ∈ (localGetState s v).map Prod.fst ↔
      ∃ i : Nat, v < (i : Int) ∧ i < s.update_history.length ∧
        name ∈ s.update_history.getD i []) ∧
    ((localGetState s v).map Prod.fst).Nodup ∧
    (∀ st : Nat, (name, st) ∈ localGetState s v → st = algStateOf s name) ∧
    localGetStateDefault s = localGetState s ((localVersion s : Int) - 1) := by
  refine ⟨?_, ?_, ?_, rfl⟩
  · simp [localGetState, historySlice, List.mem_dedup, List.mem_flatMap, List.mem_filter]
    constructor
    · rintro ⟨i, ⟨hi, hv⟩, hm⟩
      exact ⟨i, hv, hi, hm⟩
    · rintro ⟨i, hv, hi, hm⟩
      exact ⟨i, ⟨hi, hv⟩, hm⟩
  · simp only [localGetState]
    have hc : (Prod.fst ∘ fun n => (n, algStateOf s n)) = id := rfl
    simp [List.map_map, hc]
    exact List.nodup_dedup _
  · intro st h
    simp [localGetState] at h
    obtain ⟨n, hn, h1, h2⟩ := h
    subst h1; subst h2; rfl

/-- C6 (counterexample): the claim asserts that `update()` with an empty
input has no side effect for every policy-manager variant, but
`SimplePolicyManager.update` runs `self._version += 1` unconditionally:
on a concrete one-policy manager at version 0, an empty update returns the
manager at version 1, not the unchanged manager. -/
theorem claim_C6_counterexample :
    simpleUpdate { policy_states := [("p1", 0)], version := 0 } [] ≠
      some { policy_states := [("p1", 0)], version := 0 } := by decide

/-- C6 (amended): `LocalPolicyManager.update` with an empty `exp_by_policy`
map is a no-op, but `SimplePolicyManager.update` with an empty `rollout_info`
map leaves the policy states untouched while still incrementing the version
by exactly 1. -/
theorem claim_C6_amended_empty_update (s : LocalPolicyManager) (sm : SimplePolicyManager) :
    localUpdate s [] = s ∧
    simpleUpdate sm [] = some { policy_states := sm.policy_states, version := sm.version + 1 } :=
  ⟨rfl, rfl⟩

/-- C9: `AbsPolicyManager.__init__` seeds `_update_history` with a single
entry holding every managed policy name, so immediately after construction
the version is 0 and `get_state()` with the default argument returns a state
entry for every managed policy. -/
theorem claim_C9_initial_history_seeds_all_policies (pd : List (String × Policy))
    (uo : List (String × PolicyUpdateOptions)) (name : String) :
    localVersion (mkLocalPolicyManager pd uo) = 0 ∧
    (mkLocalPolicyManager pd uo).update_history = [pd.map Prod.fst] ∧
    (name ∈ (localGetStateDefault (mkLocalPolicyManager pd uo)).map Prod.fst ↔
      name ∈ pd.map Prod.fst) := by
  refine ⟨rfl, rfl, ?_⟩
  simp [localGetStateDefault, localGetState, historySlice, mkLocalPolicyManager, localVersion,
    List.mem_dedup, List.range_succ]

/-- C3: in the serving loop with staleness bound `max_lag = L` and current
version `C = get_version()`, a `SAMPLE_DONE` carrying version `v` with
`C - v > L` leaves the manager unchanged and still replies with the current
state and version, while `C - v <= L` calls `update(rollout_info)` first and
replies with the post-update state and version; with `L = 0` (and `v` at most
`C`), the payload is applied exactly when `v = C`. -/
theorem claim_C3_staleness_filter {M S R : Type} (update : M → R → M)
    (get_state : M → S) (get_version : M → Nat) (L : Nat) (m : M) (v : Int) (info : R) :
    ((get_version m : Int) - v > (L : Int) →
      handleSampleDone update get_state get_version L m v info =
        (m, get_state m, get_version m)) ∧
    ((get_version m : Int) - v ≤ (L : Int) →
      handleSampleDone update get_state get_version L m v info =
        (update m info, get_state (update m info), get_version (update m info))) ∧
    (L = 0 → v < (get_version m : Int) →
      handleSampleDone update get_state get_version L m v info =
        (m, get_state m, get_version m)) ∧
    (L = 0 → v = (get_version m : Int) →
      handleSampleDone update get_state get_version L m v info =
        (update m info, get_state (update m info), get_version (update m info))) := by
  refine ⟨fun h => ?_, fun h => ?_, fun hL hv => ?_, fun hL hv => ?_⟩
  · rw [handleSampleDone, if_pos h]
  · rw [handleSampleDone, if_neg (by omega)]
  · subst hL; rw [handleSampleDone, if_pos (by omega)]
  · subst hL; rw [handleSampleDone, if_neg (by omega)]

theorem claim_C3_witness :
    handleSampleDone (fun (m : Nat) (_ : Nat) => m + 1) id id 1 5 4 0 = (6, 6, 6) ∧
    handleSampleDone (fun (m : Nat) (_ : Nat) => m + 1) id id 1 5 3 0 = (5, 5, 5) :=
  ⟨(claim_C3_staleness_filter (fun (m : Nat) (_ : Nat) => m + 1) id id 1 5 4 0).2.1 (by decide),
   (claim_C3_staleness_filter (fun (m : Nat) (_ : Nat) => m + 1) id id 1 5 3 0).1 (by decide)⟩

/-- C8 (counterexample): the claim asserts every process raises and stops on
a malformed dispatch, but `AbsPolicyManager.server` has no else branch: a
message whose tag is not among the three it handles (here a `LEARN` sent to
the server) falls through the if/elif chain, and the loop silently continues
with an unchanged manager and actor counter, emitting no reply. -/
theorem claim_C8_counterexample :
    serverStep (fun (m : Nat) (_ : RolloutInfo) => m + 1) id id 0 (0, (2 : Int))
        (Msg.learnMsg []) =
      (StepOutcome.next (0, (2 : Int)), none) := rfl


theorem learnEntries_none_of_bad (info : RolloutInfo) :
    info.any (fun e => recordHeadBad e.2) = true →
    ∀ pd : List (String × Nat), learnEntries pd info = none := by
  induction info with
  | nil => intro h; simp at h
  | cons e rest ih =>
    intro h pd
    obtain ⟨name, records⟩ := e
    match records with
    | [] => rfl
    | RolloutRecord.unknownRecord x :: tl => rfl
    | RolloutRecord.trajectory x :: tl =>
      have h2 : rest.any (fun e => recordHeadBad e.2) = true := by
        rw [List.any_cons] at h
        simpa [recordHeadBad] using h
      simpa [learnEntries] using ih h2 _
    | RolloutRecord.lossInfo x :: tl =>
      have h2 : rest.any (fun e => recordHeadBad e.2) = true := by
        rw [List.any_cons] at h
        simpa [recordHeadBad] using h
      simpa [learnEntries] using ih h2 _

/-- C8 (amended): `policy_host` and `grad_worker` hit their
`else: raise TypeError` on any unexpected message tag, and `policy_host`
raises on a `LEARN` request containing a record list whose head is neither a
`Trajectory` nor a `LossInfo` (or is empty); the policy server loop, however,
silently skips a message with an unexpected tag and keeps serving with its
state unchanged. -/
theorem claim_C8_amended_malformed_dispatch {M S : Type} (update : M → RolloutInfo → M)
    (get_state : M → S) (get_version : M → Nat) (L : Nat) (st : M × Int)
    (pd : List (String × Nat)) (msg : Msg) (info : RolloutInfo) :
    (hostExpected msg = false → policyHostStep pd msg = StepOutcome.raised) ∧
    (info.any (fun e => recordHeadBad e.2) = true →
      policyHostStep pd (Msg.learnMsg info) = StepOutcome.raised) ∧
    (workerExpected msg = false → gradWorkerStep pd msg = StepOutcome.raised) ∧
    (serverExpected msg = false →
      serverStep update get_state get_version L st msg = (StepOutcome.next st, none)) := by
  refine ⟨fun h => ?_, fun h => ?_, fun h => ?_, fun h => ?_⟩
  · cases msg <;> simp_all [hostExpected, policyHostStep]
  · simp [policyHostStep, learnEntries_none_of_bad info h pd]
  · cases msg <;> simp_all [workerExpected, gradWorkerStep]
  · cases msg <;> simp_all [serverExpected, serverStep]

theorem claim_C8_amended_witness :
    policyHostStep [] Msg.actorDone = StepOutcome.raised ∧
    policyHostStep [] (Msg.learnMsg [("p1", [RolloutRecord.unknownRecord 0])]) =
      StepOutcome.raised ∧
    gradWorkerStep [] Msg.getInitialPolicyState = StepOutcome.raised ∧
    serverStep (fun (m : Nat) (_ : RolloutInfo) => m + 1) id id 0 (0, (2 : Int))
        (Msg.computeGrad []) = (StepOutcome.next (0, (2 : Int)), none) :=
  ⟨(claim_C8_amended_malformed_dispatch (fun (m : Nat) (_ : RolloutInfo) => m + 1) id id 0
      (0, (2 : Int)) [] Msg.actorDone []).1 (by decide),
   (claim_C8_amended_malformed_dispatch (fun (m : Nat) (_ : RolloutInfo) => m + 1) id id 0
      (0, (2 : Int)) [] Msg.actorDone [("p1", [RolloutRecord.unknownRecord 0])]).2.1 (by decide),
   (claim_C8_amended_malformed_dispatch (fun (m : Nat) (_ : RolloutInfo) => m + 1) id id 0
      (0, (2 : Int)) [] Msg.getInitialPolicyState []).2.2.1 (by decide),
   (claim_C8_amended_malformed_dispatch (fun (m : Nat) (_ : RolloutInfo) => m + 1) id id 0
      (0, (2 : Int)) [] (Msg.computeGrad []) []).2.2.2 (by decide)⟩

theorem bumpFirst_sum (m r : Nat) (l : List (String × Nat)) (h : ∃ p ∈ l, p.2 = m) :
    ((bumpFirst m r l).map Prod.snd).sum = (l.map Prod.snd).sum + r := by
  induction l with
  | nil => simp at h
  | cons a t ih =>
    obtain ⟨name, q⟩ := a
    by_cases hq : q = m
    · simp [bumpFirst, hq]
      omega
    · simp only [bumpFirst, if_neg hq]
      have h2 : ∃ p ∈ t, p.2 = m := by
        obtain ⟨p, hp, hpm⟩ := h
        rcases List.mem_cons.mp hp with h1 | h1
        · exact absurd (by rw [h1] at hpm; exact hpm) hq
        · exact ⟨p, h1, hpm⟩
      simp [ih h2]
      omega

theorem maxQuota_attained (l : List (String × Nat)) (h : l ≠ []) :
    ∃ p ∈ l, p.2 = maxQuota l := by
  induction l with
  | nil => exact absurd rfl h
  | cons a t ih =>
    by_cases ht : t = []
    · subst ht
      exact ⟨a, List.mem_cons_self a [], by simp [maxQuota]⟩
    · obtain ⟨p, hp, hpm⟩ := ih ht
      by_cases hle : maxQuota t ≤ a.2
      · refine ⟨a, List.mem_cons_self a t, ?_⟩
        simp [maxQuota] at hle ⊢
        omega
      · refine ⟨p, List.mem_cons_of_mem a hp, ?_⟩
        rw [hpm]
        simp [maxQuota] at hle ⊢
        omega

theorem adjustQuotas_sum (n : Nat) (qs : List (String × Nat)) (hne : qs ≠ [])
    (hle : (qs.map Prod.snd).sum ≤ n) :
    ((adjustQuotas n qs).map Prod.snd).sum = n := by
  unfold adjustQuotas
  by_cases h : (0 : Int) < (n : Int) - ((qs.map Prod.snd).sum : Int)
  · rw [if_pos h]
    obtain ⟨p, hp, hpm⟩ := maxQuota_attained qs hne
    rw [bumpFirst_sum (maxQuota qs) _ qs ⟨p, hp, hpm⟩]
    omega
  · rw [if_neg h]
    omega

theorem emitAssign_slots (n : Nat) (qs : List (String × Nat)) :
    ∀ o : Nat, (emitAssign n o qs).map Prod.snd =
      (List.range ((qs.map Prod.snd).sum)).map (fun t => (t + o) % n) := by
  induction qs with
  | nil => intro o; simp [emitAssign]
  | cons a qs ih =>
    intro o
    obtain ⟨name, q⟩ := a
    simp only [emitAssign, List.map_append, List.map_map, List.map_cons, List.sum_cons]
    rw [ih ((o + q) % n)]
    rw [List.range_add q ((qs.map Prod.snd).sum), List.map_append, List.map_map]
    congr 1
    congr 1
    funext t
    show (t + (o + q) % n) % n = (q + t + o) % n
    rw [Nat.add_comm t ((o + q) % n), Nat.mod_add_mod]
    congr 1
    omega

theorem countSlot_emit_exact (n : Nat) (qs : List (String × Nat))
    (hsum : (qs.map Prod.snd).sum = n) (s : Nat) (hs : s < n) :
    countSlot (emitAssign n 0 qs) s = 1 := by
  unfold countSlot
  rw [emitAssign_slots n qs 0, hsum]
  have hmap : (List.range n).map (fun t => (t + 0) % n) = List.range n := by
    rw [List.map_congr_left (fun t ht => ?_), List.map_id]
    show (t + 0) % n = t
    rw [Nat.add_zero]
    exact Nat.mod_eq_of_lt (List.mem_range.mp ht)
  rw [hmap]
  exact List.count_eq_one_of_mem (List.nodup_range n) (List.mem_range.mpr hs)

/-- C4: evaluating the cold-start branch of
`MultiNodeDistPolicyManager.allocate_strategy`.  The claim asserts that with
no load history each policy is striped so that every slot receives at least
one policy (in particular all 5 slots with 3 policies), but both loops of the
`len(num_experiences_by_policy) == 0` branch iterate over the empty
`num_experiences_by_policy` dict itself, so nothing is ever assigned: the
emitted assignment is empty for `num_trainers = 5` (and for every other slot
count). -/
theorem claim_C4_cold_start_allocates_nothing (n : Nat) :
    allocate_strategy 5 [] = [] ∧ allocate_strategy n [] = [] := by
  refine ⟨rfl, ?_⟩
  unfold allocate_strategy
  simp [slice_stride]

/-- C5 (counterexample): with `num_trainers = 4` slots and nonzero loads
`{p1: 7, p2: 7, p3: 2}` (3 policies ≤ 4 slots, every ratio exactly
representable in binary floating point), the rounded quotas are 2, 2 and
`max(1, round(0.5)) = 1`, summing to 5 > 4; the consecutive-offset emission
then wraps and assigns slot 0 to both `p1` and `p3`, so the slot→policies
map does not cover every slot index exactly once. -/
theorem claim_C5_counterexample :
    (0 < 4 ∧ (3 : Nat) ≤ 4 ∧ ∀ p ∈ [("p1", 7), ("p2", 7), ("p3", 2)], 0 < p.2) ∧
    countSlot (allocate_strategy 4 [("p1", 7), ("p2", 7), ("p3", 2)]) 0 = 2 ∧
    ¬ (∀ s < 4, countSlot (allocate_strategy 4 [("p1", 7), ("p2", 7), ("p3", 2)]) s = 1) := by
  decide

/-- C5 (amended): in the warm branch, whenever `num_policies <= num_slots`,
all loads are nonzero, and the rounded per-policy quotas sum to at most
`num_slots` (so that after the deficit is added to the highest-quota policy
they sum to exactly `num_slots`), the consecutive-offset emission covers
every slot index exactly once across all policies combined. -/
theorem claim_C5_amended_exact_coverage (n : Nat) (loads : List (String × Nat))
    (hn : 0 < n) (hne : loads ≠ []) (hpos : ∀ p ∈ loads, 0 < p.2)
    (hcount : loads.length ≤ n)
    (hsum : ((quotaList n loads).map Prod.snd).sum ≤ n) :
    ∀ s, s < n → countSlot (allocate_strategy n loads) s = 1 := by
  intro s hs
  have hlen : ¬ loads.length = 0 := by
    intro hc
    exact hne (List.length_eq_zero.mp hc)
  unfold allocate_strategy
  rw [if_neg hlen]
  have hqne : quotaList n loads ≠ [] := by
    intro hc
    apply hne
    unfold quotaList at hc
    exact List.map_eq_nil_iff.mp hc
  exact countSlot_emit_exact n _ (adjustQuotas_sum n _ hqne hsum) s hs

theorem claim_C5_amended_witness :
    countSlot (allocate_strategy 4 [("p1", 1), ("p2", 1), ("p3", 1)]) 0 = 1 :=
  claim_C5_amended_exact_coverage 4 [("p1", 1), ("p2", 1), ("p3", 1)]
    (by decide) (by decide) (by decide) (by decide) (by decide) 0 (by decide)

theorem groupInsert_keys {α : Type} (m : List (Nat × List (String × α))) (h : Nat)
    (e : String × α) :
    (groupInsert m h e).map Prod.fst =
      if h ∈ m.map Prod.fst then m.map Prod.fst else m.map Prod.fst ++ [h] := by
  induction m with
  | nil => simp [groupInsert]
  | cons a t ih =>
    obtain ⟨k, l⟩ := a
    by_cases hk : k = h
    · subst hk
      simp [groupInsert]
    · have hkh : ¬ h = k := fun hc => hk hc.symm
      simp only [groupInsert, if_neg hk, List.map_cons, List.mem_cons, ih]
      by_cases hm : h ∈ t.map Prod.fst
      · simp [hm, hkh]
      · simp [hm, hkh]

theorem groupInsert_get {α : Type} (m : List (Nat × List (String × α))) (h h' : Nat)
    (e : String × α) :
    alGet? (groupInsert m h e) h' =
      if h = h' then some ((alGet? m h).getD [] ++ [e]) else alGet? m h' := by
  induction m with
  | nil =>
    simp only [groupInsert, alGet?]
    by_cases hh : h = h' <;> simp [hh, alGet?]
  | cons a t ih =>
    obtain ⟨k, l⟩ := a
    by_cases hk : k = h
    · subst hk
      simp only [groupInsert, if_pos rfl, alGet?]
      by_cases hh : k = h' <;> simp [hh]
    · have hkh : ¬ h = k := fun hc => hk hc.symm
      simp only [groupInsert, if_neg hk, alGet?]
      by_cases hk' : k = h'
      · subst hk'
        simp [hkh]
      · simp [hk', ih]

theorem buildMsgDict_append {α : Type} (p2h : String → Nat) (ri : List (String × α))
    (e : String × α) :
    buildMsgDict p2h (ri ++ [e]) = groupInsert (buildMsgDict p2h ri) (p2h e.1) e := by
  unfold buildMsgDict
  rw [List.foldl_append]
  rfl

theorem filter_host_nil {α : Type} (p2h : String → Nat) (ri : List (String × α)) (h : Nat)
    (hnm : h ∉ ri.map (fun x => p2h x.1)) :
    ri.filter (fun x => decide (p2h x.1 = h)) = [] := by
  rw [List.filter_eq_nil_iff]
  intro a ha
  simp only [decide_eq_true_eq]
  intro hc
  exact hnm (List.mem_map.mpr ⟨a, ha, hc⟩)

theorem buildMsgDict_get {α : Type} (p2h : String → Nat) (ri : List (String × α)) (h : Nat) :
    alGet? (buildMsgDict p2h ri) h =
      if h ∈ ri.map (fun x => p2h x.1) then
        some (ri.filter (fun x => decide (p2h x.1 = h)))
      else none := by
  induction ri using List.reverseRecOn with
  | nil => simp [buildMsgDict, alGet?]
  | append_singleton ri e ih =>
    rw [buildMsgDict_append, groupInsert_get, List.filter_append, List.map_append]
    by_cases he : p2h e.1 = h
    · rw [if_pos he, he, ih]
      by_cases hm : h ∈ ri.map (fun x => p2h x.1)
      · simp [hm, he, List.filter_cons]
      · simp [hm, he, List.filter_cons, filter_host_nil p2h ri h hm]
    · rw [if_neg he, ih]
      have heh : ¬ h = p2h e.1 := fun hc => he hc.symm
      by_cases hm : h ∈ ri.map (fun x => p2h x.1)
      · simp [hm, he, heh, List.filter_cons]
      · simp [hm, he, heh, List.filter_cons]

theorem buildMsgDict_keys_nodup {α : Type} (p2h : String → Nat) (ri : List (String × α)) :
    ((buildMsgDict p2h ri).map Prod.fst).Nodup := by
  induction ri using List.reverseRecOn with
  | nil => simp [buildMsgDict]
  | append_singleton ri e ih =>
    rw [buildMsgDict_append, groupInsert_keys]
    by_cases hm : p2h e.1 ∈ (buildMsgDict p2h ri).map Prod.fst
    · simpa [hm]
    · simp [hm, List.nodup_append, ih]

theorem alGet?_of_mem_of_nodup {κ α : Type} [DecidableEq κ] (m : List (κ × α)) (k : κ)
    (v : α) (hnd : (m.map Prod.fst).Nodup) (hm : (k, v) ∈ m) : alGet? m k = some v := by
  induction m with
  | nil => simp at hm
  | cons a t ih =>
    obtain ⟨ak, av⟩ := a
    simp only [List.map_cons, List.nodup_cons] at hnd
    rcases List.mem_cons.mp hm with h1 | h1
    · injection h1 with hk hv
      subst hk; subst hv
      simp [alGet?]
    · by_cases hak : ak = k
      · exfalso
        apply hnd.1
        rw [hak]
        exact List.mem_map.mpr ⟨(k, v), h1, rfl⟩
      · simp only [alGet?, if_neg hak]
        exact ih hnd.2 h1

/-- C7: in the multi-node topology (`DistributedPolicyManager.update` and
`MultiNodePolicyManager.update`), the per-destination message map built from
`rollout_info` has one payload per destination host (no duplicate host keys),
each payload is exactly the rollout entries of the policies assigned to that
host (in arrival order), a host appears as a destination iff it owns some
policy present in `rollout_info`, and the gather threshold `len(msg_dict)`
equals the number of distinct destination hosts of the cycle — so a host
owning no updated policy is neither contacted nor waited on. -/
theorem claim_C7_scatter_per_host_gather_distinct (p2h : String → Nat) (ri : RolloutInfo)
    (hnd : (ri.map Prod.fst).Nodup) :
    ((buildMsgDict p2h ri).map Prod.fst).Nodup ∧
    (∀ (h : Nat) (pl : List (String × List RolloutRecord)),
      (h, pl) ∈ buildMsgDict p2h ri → pl = ri.filter (fun e => decide (p2h e.1 = h))) ∧
    (∀ h : Nat, h ∈ (buildMsgDict p2h ri).map Prod.fst ↔ ∃ e ∈ ri, p2h e.1 = h) ∧
    (buildMsgDict p2h ri).length = ((ri.map (fun e => p2h e.1)).dedup).length := by
  have hmem : ∀ h : Nat, h ∈ (buildMsgDict p2h ri).map Prod.fst ↔ ∃ e ∈ ri, p2h e.1 = h := by
    intro h
    rw [← alGet?_isSome_iff_mem, buildMsgDict_get]
    by_cases hm : h ∈ ri.map (fun e => p2h e.1)
    · simp only [if_pos hm, Option.isSome_some, true_iff]
      obtain ⟨e, he, hph⟩ := List.mem_map.mp hm
      exact ⟨e, he, hph⟩
    · rw [if_neg hm]
      simp only [Option.isSome_none, Bool.false_eq_true, false_iff]
      intro hc
      obtain ⟨e, he, hph⟩ := hc
      exact hm (List.mem_map.mpr ⟨e, he, hph⟩)
  refine ⟨buildMsgDict_keys_nodup p2h ri, ?_, hmem, ?_⟩
  · intro h pl hm
    have h1 : alGet? (buildMsgDict p2h ri) h = some pl :=
      alGet?_of_mem_of_nodup _ h pl (buildMsgDict_keys_nodup p2h ri) hm
    rw [buildMsgDict_get] at h1
    by_cases hm2 : h ∈ ri.map (fun e => p2h e.1)
    · rw [if_pos hm2] at h1
      exact (Option.some.injEq _ _ ▸ h1).symm
    · rw [if_neg hm2] at h1
      exact absurd h1 (by simp)
  · have hn1 : ((buildMsgDict p2h ri).map Prod.fst).Nodup := buildMsgDict_keys_nodup p2h ri
    have hn2 : ((ri.map (fun e => p2h e.1)).dedup).Nodup := List.nodup_dedup _
    have hiff : ∀ h : Nat, h ∈ (buildMsgDict p2h ri).map Prod.fst ↔
        h ∈ (ri.map (fun e => p2h e.1)).dedup := by
      intro h
      rw [hmem h, List.mem_dedup]
      constructor
      · intro ⟨e, he, hph⟩
        exact List.mem_map.mpr ⟨e, he, hph⟩
      · intro hm
        obtain ⟨e, he, hph⟩ := List.mem_map.mp hm
        exact ⟨e, he, hph⟩
    have hperm := (List.perm_ext_iff_of_nodup hn1 hn2).2 hiff
    have := hperm.length_eq
    rwa [List.length_map] at this

theorem claim_C7_witness :
    (buildMsgDict (fun n => if n = "p1" then 0 else 1)
        [("p1", [RolloutRecord.trajectory 0]), ("p2", [RolloutRecord.trajectory 1]),
         ("p3", [RolloutRecord.lossInfo 2])]).length =
      (([("p1", [RolloutRecord.trajectory 0]), ("p2", [RolloutRecord.trajectory 1]),
         ("p3", [RolloutRecord.lossInfo 2])].map
          (fun e => if e.1 = "p1" then 0 else 1)).dedup).length :=
  (claim_C7_scatter_per_host_gather_distinct (fun n => if n = "p1" then 0 else 1)
    [("p1", [RolloutRecord.trajectory 0]), ("p2", [RolloutRecord.trajectory 1]),
     ("p3", [RolloutRecord.lossInfo 2])] (by decide)).2.2.2

theorem mpGatherStep_eq (uo : List (String × PolicyUpdateOptions)) (st : MPState)
    (ets : List (String × Nat)) (e : String × Nat) :
    mpGatherStep uo (st, ets) e =
      if (alGetD uo e.1 ⟨1, 1, 1, false⟩).update_trigger ≤ alGetD st.exp_cache e.1 0 + e.2 ∧
         (alGetD uo e.1 ⟨1, 1, 1, false⟩).warmup ≤ alGetD st.num_experiences e.1 0 + e.2 then
        (⟨alSet st.exp_cache e.1 0,
          alSet st.num_experiences e.1 (alGetD st.num_experiences e.1 0 + e.2)⟩,
          ets ++ [(e.1, alGetD st.exp_cache e.1 0 + e.2)])
      else
        (⟨alSet st.exp_cache e.1 (alGetD st.exp_cache e.1 0 + e.2),
          alSet st.num_experiences e.1 (alGetD st.num_experiences e.1 0 + e.2)⟩, ets) := rfl

theorem mpFold_acc (uo : List (String × PolicyUpdateOptions)) (exp : List (String × Nat)) :
    ∀ (st : MPState) (ets : List (String × Nat)),
      (exp.foldl (mpGatherStep uo) (st, ets)).2 =
        ets ++ (exp.foldl (mpGatherStep uo) (st, [])).2 := by
  induction exp with
  | nil => intro st ets; simp
  | cons e exp ih =>
    intro st ets
    simp only [List.foldl_cons, mpGatherStep_eq]
    by_cases h : (alGetD uo e.1 ⟨1, 1, 1, false⟩).update_trigger ≤
        alGetD st.exp_cache e.1 0 + e.2 ∧
        (alGetD uo e.1 ⟨1, 1, 1, false⟩).warmup ≤ alGetD st.num_experiences e.1 0 + e.2
    · rw [if_pos h, if_pos h,
        ih _ (ets ++ [(e.1, alGetD st.exp_cache e.1 0 + e.2)]),
        ih _ ([] ++ [(e.1, alGetD st.exp_cache e.1 0 + e.2)])]
      simp
    · rw [if_neg h, if_neg h]
      exact ih _ ets

theorem metUpdateCondition_congr (uo : List (String × PolicyUpdateOptions))
    (st st' : MPState) (e : String × Nat)
    (hc : alGetD st'.exp_cache e.1 0 = alGetD st.exp_cache e.1 0)
    (hn : alGetD st'.num_experiences e.1 0 = alGetD st.num_experiences e.1 0) :
    metUpdateCondition uo st' e = metUpdateCondition uo st e := by
  unfold metUpdateCondition
  rw [hc, hn]

theorem mpComputeSend_keys (uo : List (String × PolicyUpdateOptions))
    (exp : List (String × Nat)) :
    ∀ st st' : MPState,
      (∀ e ∈ exp, alGetD st'.exp_cache e.1 0 = alGetD st.exp_cache e.1 0 ∧
        alGetD st'.num_experiences e.1 0 = alGetD st.num_experiences e.1 0) →
      (exp.map Prod.fst).Nodup →
      (mpComputeSend uo st' exp).map Prod.fst =
        (exp.filter (metUpdateCondition uo st)).map Prod.fst := by
  induction exp with
  | nil => intro st st' _ _; simp [mpComputeSend]
  | cons e exp ih =>
    intro st st' hagree hnd
    simp only [List.map_cons, List.nodup_cons] at hnd
    have hae := hagree e (List.mem_cons_self e exp)
    have hcond : metUpdateCondition uo st' e = metUpdateCondition uo st e :=
      metUpdateCondition_congr uo st st' e hae.1 hae.2
    have hagreeTail : ∀ c2 n2 : Nat, ∀ e' ∈ exp,
        alGetD (alSet st'.exp_cache e.1 c2) e'.1 0 = alGetD st.exp_cache e'.1 0 ∧
        alGetD (alSet st'.num_experiences e.1 n2) e'.1 0 =
          alGetD st.num_experiences e'.1 0 := by
      intro c2 n2 e' he'
      have hne : e.1 ≠ e'.1 := fun hc => hnd.1 (hc ▸ List.mem_map.mpr ⟨e', he', rfl⟩)
      have ha' := hagree e' (List.mem_cons_of_mem e he')
      rw [alGetD_alSet, if_neg hne, alGetD_alSet, if_neg hne]
      exact ha'
    simp only [mpComputeSend, List.foldl_cons, mpGatherStep_eq]
    by_cases hm : metUpdateCondition uo st e = true
    · have hm' : (alGetD uo e.1 ⟨1, 1, 1, false⟩).update_trigger ≤
          alGetD st'.exp_cache e.1 0 + e.2 ∧
          (alGetD uo e.1 ⟨1, 1, 1, false⟩).warmup ≤
            alGetD st'.num_experiences e.1 0 + e.2 := by
        have hm2 : metUpdateCondition uo st' e = true := by rw [hcond]; exact hm
        unfold metUpdateCondition at hm2
        simp only [Bool.and_eq_true, decide_eq_true_eq] at hm2
        exact hm2
      rw [if_pos hm']
      rw [mpFold_acc]
      have ihx := ih st
        ⟨alSet st'.exp_cache e.1 0,
          alSet st'.num_experiences e.1 (alGetD st'.num_experiences e.1 0 + e.2)⟩
        (hagreeTail 0 (alGetD st'.num_experiences e.1 0 + e.2)) hnd.2
      simp only [mpComputeSend] at ihx
      rw [List.filter_cons_of_pos hm, List.map_cons, List.map_append]
      rw [ihx]
      rfl
    · have hm' : ¬ ((alGetD uo e.1 ⟨1, 1, 1, false⟩).update_trigger ≤
          alGetD st'.exp_cache e.1 0 + e.2 ∧
          (alGetD uo e.1 ⟨1, 1, 1, false⟩).warmup ≤
            alGetD st'.num_experiences e.1 0 + e.2) := by
        intro hc
        apply hm
        rw [← hcond]
        unfold metUpdateCondition
        simp only [Bool.and_eq_true, decide_eq_true_eq]
        exact hc
      rw [if_neg hm']
      have ihx := ih st
        ⟨alSet st'.exp_cache e.1 (alGetD st'.exp_cache e.1 0 + e.2),
          alSet st'.num_experiences e.1 (alGetD st'.num_experiences e.1 0 + e.2)⟩
        (hagreeTail (alGetD st'.exp_cache e.1 0 + e.2)
          (alGetD st'.num_experiences e.1 0 + e.2)) hnd.2
      simp only [mpComputeSend] at ihx
      rw [List.filter_cons_of_neg (by simp [hm])]
      exact ihx

theorem assignRR_mem_names (nt : Nat) (names : List String) :
    ∀ (i : Nat) (nm : String) (j : Nat), (nm, j) ∈ assignRR nt i names → nm ∈ names := by
  induction names with
  | nil => intro i nm j h; simp [assignRR] at h
  | cons n t ih =>
    intro i nm j h
    rcases List.mem_cons.mp h with h1 | h1
    · injection h1 with h2 _
      exact h2 ▸ List.mem_cons_self n t
    · exact List.mem_cons_of_mem n (ih (i + 1) nm j h1)

theorem assignRR_covers (nt : Nat) (hnt : 0 < nt) (names : List String) :
    ∀ (i : Nat) (nm : String), nm ∈ names →
      ∃ j, j < nt ∧ (nm, j) ∈ assignRR nt i names := by
  induction names with
  | nil => intro i nm h; simp at h
  | cons n t ih =>
    intro i nm h
    rcases List.mem_cons.mp h with h1 | h1
    · exact ⟨i % nt, Nat.mod_lt i hnt, h1 ▸ List.mem_cons_self _ _⟩
    · obtain ⟨j, hj, hmem⟩ := ih (i + 1) nm h1
      exact ⟨j, hj, List.mem_cons_of_mem _ hmem⟩

theorem trainer2policies_mem (nt : Nat) (names : List String) (nm : String) (j : Nat) :
    nm ∈ trainer2policies nt names j ↔ (nm, j) ∈ assignRR nt 0 names := by
  unfold trainer2policies
  constructor
  · intro h
    obtain ⟨p, hp, hpe⟩ := List.mem_map.mp h
    obtain ⟨hpa, hpj⟩ := List.mem_filter.mp hp
    have : p = (nm, j) := by
      obtain ⟨a, b⟩ := p
      simp only [decide_eq_true_eq] at hpj
      simp only at hpe
      rw [hpe, hpj]
    exact this ▸ hpa
  · intro h
    exact List.mem_map.mpr ⟨(nm, j), List.mem_filter.mpr ⟨h, by simp⟩, rfl⟩

/-- C10: in `MultiProcessPolicyManager.update` of
`src/maro/rl/policy/policy_manager.py`, when at least one policy meets its
update condition the dispatch loop looks up `exp_to_send[name]` for every
policy round-robin-assigned to every trainer; every lookup succeeds (so the
call reaches the merge phase instead of raising `KeyError`) if and only if
every managed policy met its update condition in that same call. -/
theorem claim_C10_dispatch_total_iff_all_met (uo : List (String × PolicyUpdateOptions))
    (st : MPState) (names : List String) (nt : Nat) (exp : List (String × Nat))
    (hnt : 0 < nt) (hnd : (exp.map Prod.fst).Nodup)
    (hne : mpComputeSend uo st exp ≠ []) :
    dispatchTotal names nt (mpComputeSend uo st exp) ↔
      ∀ nm ∈ names, ∃ e ∈ exp, e.1 = nm ∧ metUpdateCondition uo st e = true := by
  have hkeys : (mpComputeSend uo st exp).map Prod.fst =
      (exp.filter (metUpdateCondition uo st)).map Prod.fst :=
    mpComputeSend_keys uo exp st st (fun _ _ => ⟨rfl, rfl⟩) hnd
  constructor
  · intro htot nm hnm
    obtain ⟨j, hj, hmem⟩ := assignRR_covers nt hnt names 0 nm hnm
    have hlook := htot j hj nm ((trainer2policies_mem nt names nm j).mpr hmem)
    rw [alGet?_isSome_iff_mem, hkeys] at hlook
    obtain ⟨e, he, hee⟩ := List.mem_map.mp hlook
    obtain ⟨hea, hef⟩ := List.mem_filter.mp he
    exact ⟨e, hea, hee, hef⟩
  · intro hall j hj nm hmem
    have hnm : nm ∈ names :=
      assignRR_mem_names nt names 0 nm j ((trainer2policies_mem nt names nm j).mp hmem)
    obtain ⟨e, he, hee, hef⟩ := hall nm hnm
    rw [alGet?_isSome_iff_mem, hkeys]
    exact List.mem_map.mpr ⟨e, List.mem_filter.mpr ⟨he, hef⟩, hee⟩

theorem claim_C10_witness :
    dispatchTotal ["p1"] 1
      (mpComputeSend [("p1", ⟨1, 1, 1, false⟩)] ⟨[], []⟩ [("p1", 1)]) :=
  (claim_C10_dispatch_total_iff_all_met [("p1", ⟨1, 1, 1, false⟩)] ⟨[], []⟩ ["p1"] 1
    [("p1", 1)] (by decide) (by decide) (by decide)).mpr (by decide)
